import Mathlib

/-!
Verification development for the news fetch-normalize-cache-fallback pipeline.

The JavaScript sources are shallowly embedded as pure Lean functions:

* src/public/app.js : date formatter, ACESPHERE JSON normalizer, Nirmalbang
  markup fallback extractor, sort/cap logic, refresh cycle and cache accessor.
* src/server.js : Cheerio-based HTML news parser and the /news endpoint
  handler with its TTL cache.

Modelling conventions:
* JavaScript values reaching the pipeline are modelled by the inductive `JVal`
  (null, booleans, numbers restricted to integers, strings, arrays, objects).
* The host `Date` facility is modelled by an explicit proleptic-Gregorian
  calendar (`civilFromDays` / `daysFromCivil`, standard era-based algorithms)
  together with a strict ISO-8601 string parser; the process timezone is
  modelled as UTC, so the local-time getters used by the code coincide with
  the parsed calendar fields.
* HTTP transport, the regex engine and the Cheerio DOM queries are external
  collaborators (as scoped in the spec); their outcomes enter the model as
  explicit parameters (response bodies, capture lists, matched containers).
* Stateful code is modelled by explicit state passing; the aliasing behaviour
  of the cache accessor is modelled with an explicit array heap.
-/

/-! ## Character and string helpers -/

/-- Whitespace test used by the model of `String.prototype.trim`. -/
def wsChar (c : Char) : Bool :=
  c = ' ' || c = '\t' || c = '\n' || c = '\r' || c = '\x0c' || c = '\x0b'

/-- Drop leading and trailing whitespace from a character list. -/
def trimCh (l : List Char) : List Char :=
  ((l.dropWhile wsChar).reverse.dropWhile wsChar).reverse

/-- Model of the JavaScript `String.prototype.trim`. -/
def jsTrim (s : String) : String :=
  ⟨trimCh s.data⟩

/-- Decimal digit character for a digit value (values above nine render as 9;
they never arise because the function is only applied to `n % 10` or `n < 10`). -/
def digitChar (n : Nat) : Char :=
  match n with
  | 0 => '0' | 1 => '1' | 2 => '2' | 3 => '3' | 4 => '4'
  | 5 => '5' | 6 => '6' | 7 => '7' | 8 => '8' | _ => '9'

/-- Fuelled decimal rendering of a natural number (most significant digit first).
The fuel is structural so the kernel can evaluate it; `natDigits` supplies
enough fuel for any input. -/
def natDigitsAux : Nat → Nat → List Char
  | 0, _ => []
  | fuel + 1, n =>
    if n < 10 then [digitChar n]
    else natDigitsAux fuel (n / 10) ++ [digitChar (n % 10)]

/-- Decimal digits of a natural number. -/
def natDigits (n : Nat) : List Char :=
  natDigitsAux (n + 1) n

/-- Model of the JavaScript `String(n)` conversion for non-negative numbers. -/
def natToString (n : Nat) : String :=
  ⟨natDigits n⟩

/-- Model of the JavaScript `String(i)` conversion for integers. -/
def intToString (i : Int) : String :=
  if i < 0 then "-" ++ natToString i.natAbs else natToString i.natAbs

/-- Model of `String(n).padStart(2, "0")` for a non-negative number `n`. -/
def pad2 (n : Nat) : String :=
  if n < 10 then "0" ++ natToString n else natToString n

/-- Replace every digit by the letter d, keeping other characters; used to state
the canonical date-format property. -/
def maskDigit (c : Char) : Char :=
  if c.isDigit then 'd' else c

/-- The string matches the canonical zero-padded DD-MM-YYYY HH:MM shape. -/
def isCanonicalDateShape (s : String) : Bool :=
  s.data.map maskDigit == "dd-dd-dddd dd:dd".data

/-- Skip to just after the first greater-than sign, if any. -/
def tagSkip : List Char → Option (List Char)
  | [] => none
  | c :: cs => if c = '>' then some cs else tagSkip cs

/-- Given the characters after a less-than sign, return the characters after
the closing greater-than sign of a non-empty tag, if any. -/
def tagEnd : List Char → Option (List Char)
  | [] => none
  | c :: cs => if c = '>' then none else tagSkip cs

/-- Fuelled scanner that deletes every maximal segment matching the regular
expression used in app.js line 77 (a less-than sign, one or more characters
other than greater-than, then a greater-than sign). -/
def stripTagsAux : Nat → List Char → List Char
  | 0, l => l
  | fuel + 1, l =>
    match l with
    | [] => []
    | c :: cs =>
      if c = '<' then
        match tagEnd cs with
        | some rest => stripTagsAux fuel rest
        | none => c :: stripTagsAux fuel cs
      else c :: stripTagsAux fuel cs

/-- Model of `.replace(/<[^>]+>/g, "")` from app.js line 77. -/
def stripTags (s : String) : String :=
  ⟨stripTagsAux s.data.length s.data⟩

/-- Fuelled replacement of every occurrence of a pattern (model of a global
regex replace with a literal pattern). -/
def replaceAllAux (pat rep : List Char) : Nat → List Char → List Char
  | 0, l => l
  | fuel + 1, l =>
    match l with
    | [] => []
    | c :: cs =>
      if pat ≠ [] ∧ pat.isPrefixOf (c :: cs) then
        rep ++ replaceAllAux pat rep fuel ((c :: cs).drop pat.length)
      else c :: replaceAllAux pat rep fuel cs

/-- Model of `s.replace(/pat/g, rep)` for a literal pattern. -/
def replaceAllStr (pat rep s : String) : String :=
  ⟨replaceAllAux pat.data rep.data s.data.length s.data⟩

/-- Replacement of the first occurrence of a pattern (model of the JavaScript
`String.prototype.replace` with a string pattern). -/
def replaceFirstCh (pat rep : List Char) : List Char → List Char
  | [] => []
  | c :: cs =>
    if pat ≠ [] ∧ pat.isPrefixOf (c :: cs) then
      rep ++ (c :: cs).drop pat.length
    else c :: replaceFirstCh pat rep cs

/-- Model of `s.replace(pat, rep)` with a string pattern. -/
def replaceFirstStr (pat rep s : String) : String :=
  ⟨replaceFirstCh pat.data rep.data s.data⟩

/-- Model of `s.startsWith(pat)`. -/
def jsStartsWith (s pat : String) : Bool :=
  pat.data.isPrefixOf s.data

/-! ## Calendar model (shallow embedding of the host Date facility, UTC) -/

/-- A calendar date-time, as observed through the local-time getters of a
JavaScript `Date` in a UTC process. -/
structure DT where
  year : Int
  month : Nat
  day : Nat
  hour : Nat
  minute : Nat
  second : Nat
deriving DecidableEq, Repr

/-- Gregorian leap-year test. -/
def isLeap (y : Int) : Bool :=
  (y % 4 == 0 && y % 100 != 0) || y % 400 == 0

/-- Number of days in a month of a given year. -/
def daysInMonth (y : Int) (m : Nat) : Nat :=
  match m with
  | 1 => 31 | 2 => if isLeap y then 29 else 28 | 3 => 31 | 4 => 30
  | 5 => 31 | 6 => 30 | 7 => 31 | 8 => 31 | 9 => 30 | 10 => 31
  | 11 => 30 | 12 => 31 | _ => 0

/-- Days since the Unix epoch of a civil date (era-based algorithm). -/
def daysFromCivil (y : Int) (m d : Nat) : Int :=
  let yAdj : Int := if m ≤ 2 then y - 1 else y
  let era : Int := yAdj.ediv 400
  let yoe : Nat := (yAdj - era * 400).toNat
  let mp : Nat := if 2 < m then m - 3 else m + 9
  let doy : Nat := (153 * mp + 2) / 5 + d - 1
  let doe : Nat := yoe * 365 + yoe / 4 - yoe / 100 + doy
  era * 146097 + (doe : Int) - 719468

/-- Year-of-era computation of the civil-from-days algorithm, exposed for the
bounds lemmas. -/
def civilYoe (doe : Nat) : Nat :=
  (doe - doe / 1460 + doe / 36524 - doe / 146096) / 365

/-- Day-of-year step of the civil-from-days algorithm. -/
def civilDoy (doe : Nat) : Nat :=
  doe - (365 * civilYoe doe + civilYoe doe / 4 - civilYoe doe / 100)

/-- Shifted-month step of the civil-from-days algorithm. -/
def civilMp (doe : Nat) : Nat :=
  (5 * civilDoy doe + 2) / 153

/-- Day-of-month step of the civil-from-days algorithm. -/
def civilDay (doe : Nat) : Nat :=
  civilDoy doe - (153 * civilMp doe + 2) / 5 + 1

/-- Month step of the civil-from-days algorithm. -/
def civilMonth (doe : Nat) : Nat :=
  if civilMp doe < 10 then civilMp doe + 3 else civilMp doe - 9

/-- Civil date of a count of days since the Unix epoch (era-based algorithm). -/
def civilFromDays (z : Int) : Int × Nat × Nat :=
  let zi : Int := z + 719468
  let era : Int := zi.ediv 146097
  let doe : Nat := (zi.emod 146097).toNat
  let y : Int := (civilYoe doe : Int) + era * 400
  ((if civilMonth doe ≤ 2 then y + 1 else y), civilMonth doe, civilDay doe)

/-- Calendar fields of an epoch-milliseconds time value (model of the getters
of a valid `Date` in a UTC process). -/
def epochToDT (ms : Int) : DT :=
  let days : Int := ms.ediv 86400000
  let msod : Nat := (ms.emod 86400000).toNat
  let c := civilFromDays days
  ⟨c.1, c.2.1, c.2.2, msod / 3600000, msod % 3600000 / 60000,
    msod % 3600000 % 60000 / 1000⟩

/-- Epoch milliseconds of a calendar date-time (used as the numeric value a
`Date` compares and subtracts with). -/
def dtToEpochMs (dt : DT) : Int :=
  daysFromCivil dt.year dt.month dt.day * 86400000 +
    ((dt.hour * 3600 + dt.minute * 60 + dt.second) * 1000 : Nat)

/-- Numeric value of a decimal digit character. -/
def digitVal (c : Char) : Nat :=
  c.toNat - 48

/-- Parse the time-of-day part of an ISO 8601 string (after the letter T):
HH:MM or HH:MM:SS, optionally suffixed with Z. -/
def parseTimePart : List Char → Option (Nat × Nat × Nat)
  | [h1, h2, ':', m1, m2] =>
    if (h1.isDigit && h2.isDigit && m1.isDigit && m2.isDigit) = true then
      some (digitVal h1 * 10 + digitVal h2, digitVal m1 * 10 + digitVal m2, 0)
    else none
  | [h1, h2, ':', m1, m2, 'Z'] =>
    if (h1.isDigit && h2.isDigit && m1.isDigit && m2.isDigit) = true then
      some (digitVal h1 * 10 + digitVal h2, digitVal m1 * 10 + digitVal m2, 0)
    else none
  | [h1, h2, ':', m1, m2, ':', s1, s2] =>
    if (h1.isDigit && h2.isDigit && m1.isDigit && m2.isDigit &&
        s1.isDigit && s2.isDigit) = true then
      some (digitVal h1 * 10 + digitVal h2, digitVal m1 * 10 + digitVal m2,
        digitVal s1 * 10 + digitVal s2)
    else none
  | [h1, h2, ':', m1, m2, ':', s1, s2, 'Z'] =>
    if (h1.isDigit && h2.isDigit && m1.isDigit && m2.isDigit &&
        s1.isDigit && s2.isDigit) = true then
      some (digitVal h1 * 10 + digitVal h2, digitVal m1 * 10 + digitVal m2,
        digitVal s1 * 10 + digitVal s2)
    else none
  | _ => none

/-- Extract the raw year, month, day, hour, minute and second fields of an ISO
8601 date or date-time string, without range validation. -/
def parseFieldsISO (l : List Char) : Option (Int × Nat × Nat × Nat × Nat × Nat) :=
  match l with
  | y1 :: y2 :: y3 :: y4 :: '-' :: m1 :: m2 :: '-' :: d1 :: d2 :: rest =>
    if (y1.isDigit && y2.isDigit && y3.isDigit && y4.isDigit &&
        m1.isDigit && m2.isDigit && d1.isDigit && d2.isDigit) = true then
      let y : Nat := digitVal y1 * 1000 + digitVal y2 * 100 + digitVal y3 * 10 + digitVal y4
      let mo : Nat := digitVal m1 * 10 + digitVal m2
      let da : Nat := digitVal d1 * 10 + digitVal d2
      match rest with
      | [] => some ((y : Int), mo, da, 0, 0, 0)
      | 'T' :: tr =>
        match parseTimePart tr with
        | some (hh, mm, ss) => some ((y : Int), mo, da, hh, mm, ss)
        | none => none
      | _ => none
    else none
  | _ => none

/-- Build a date-time after validating the calendar ranges, as the host Date
parser does for ISO strings. -/
def mkValidDT (y : Int) (mo da hh mm ss : Nat) : Option DT :=
  if 1 ≤ mo ∧ mo ≤ 12 ∧ 1 ≤ da ∧ da ≤ daysInMonth y mo ∧ hh ≤ 23 ∧ mm ≤ 59 ∧ ss ≤ 59
  then some ⟨y, mo, da, hh, mm, ss⟩ else none

/-- Model of the host Date parser on strings: the ISO 8601 subset (date, or
date and time separated by T, optionally suffixed with Z), with calendar
validation; anything else is an invalid date. -/
def parseISO (s : String) : Option DT :=
  (parseFieldsISO s.data).bind fun f =>
    mkValidDT f.1 f.2.1 f.2.2.1 f.2.2.2.1 f.2.2.2.2.1 f.2.2.2.2.2

/-! ## JavaScript value model -/

/-- JavaScript values as seen by the pipeline: null, booleans, integral
numbers, strings, arrays and plain objects. -/
inductive JVal where
  | jnull
  | jbool (b : Bool)
  | jnum (n : Int)
  | jstr (s : String)
  | jarr (elems : List JVal)
  | jobj (fields : List (String × JVal))

/-- JavaScript truthiness of a value. -/
def truthy : JVal → Bool
  | .jnull => false
  | .jbool b => b
  | .jnum n => !(n == 0)
  | .jstr s => !(s == "")
  | .jarr _ => true
  | .jobj _ => true

/-- First binding of a key in an object field list (duplicate keys are not
modelled; the upstream payloads bind each key once). -/
def lookupField : List (String × JVal) → String → Option JVal
  | [], _ => none
  | (k, v) :: fs, key => if k == key then some v else lookupField fs key

/-- Model of optional-chaining property access: a present property of an
object, and no property on any other value. -/
def getField (v : JVal) (key : String) : Option JVal :=
  match v with
  | .jobj fs => lookupField fs key
  | _ => none

mutual

/-- Model of the JavaScript `String(v)` conversion (array elements convert
with null rendered empty, as in `Array.prototype.toString`). -/
def jsToString : JVal → String
  | .jnull => "null"
  | .jbool b => if b then "true" else "false"
  | .jnum n => intToString n
  | .jstr s => s
  | .jarr xs => String.intercalate "," (jsArrElems xs)
  | .jobj _ => "[object Object]"

/-- Element strings of an array conversion. -/
def jsArrElems : List JVal → List String
  | [] => []
  | v :: vs =>
    (match v with
     | .jnull => ""
     | w => jsToString w) :: jsArrElems vs

end

/-- Model of a JavaScript or-chain of property reads with a final default:
the first present and truthy property wins. -/
def firstTruthy (obj : JVal) (keys : List String) (dflt : JVal) : JVal :=
  match keys with
  | [] => dflt
  | k :: ks =>
    match getField obj k with
    | some v => if truthy v then v else firstTruthy obj ks dflt
    | none => firstTruthy obj ks dflt

/-- Model of `new Date(v)` for the values the pipeline feeds it: strings go
through the ISO parser, numbers are epoch milliseconds clipped at the
8.64e15 limit, null and false are the zero time value, true is one
millisecond; composite values are modelled as invalid dates. -/
def jsNewDate : JVal → Option DT
  | .jstr s => parseISO s
  | .jnum n => if n.natAbs ≤ 8640000000000000 then some (epochToDT n) else none
  | .jbool b => some (epochToDT (if b then 1 else 0))
  | .jnull => some (epochToDT 0)
  | .jarr _ => none
  | .jobj _ => none

/-- Numeric time value of `new Date(v)`, used by the sort comparator; `none`
models an invalid date (a NaN time value). -/
def jsTimestamp : JVal → Option Int
  | .jstr s => (parseISO s).map dtToEpochMs
  | .jnum n => if n.natAbs ≤ 8640000000000000 then some n else none
  | .jbool b => some (if b then 1 else 0)
  | .jnull => some 0
  | .jarr _ => none
  | .jobj _ => none

/-- Render a date-time the way app.js lines 28 to 34 do: zero-padded day,
month, hour and minute around the year at its natural width. -/
def fmtDT (dt : DT) : String :=
  pad2 dt.day ++ "-" ++ pad2 dt.month ++ "-" ++ intToString dt.year ++ " " ++
    pad2 dt.hour ++ ":" ++ pad2 dt.minute

/-- Model of `formatDateToDDMMYYYY_HHMM` (app.js lines 24 to 35): empty string
for an absent or falsy input or an invalid date, otherwise the formatted
local-time fields. -/
def formatDateToDDMMYYYY_HHMM (d : Option JVal) : String :=
  match d with
  | none => ""
  | some v =>
    if truthy v then
      match jsNewDate v with
      | some dt => fmtDT dt
      | none => ""
    else ""

/-- The effective parse implemented by the formatter: the date-time the
formatter renders, if any (absent, falsy and unparseable inputs yield none). -/
def jsDateValue (d : Option JVal) : Option DT :=
  match d with
  | none => none
  | some v => if truthy v then jsNewDate v else none

/-! ## app.js: normalizer, fetchers, refresh cycle, cache -/

/-- A normalized news record before the final projection (app.js lines 104
to 108). -/
structure NewsRecord where
  headline : String
  dateRaw : JVal
  date : String

/-- Date field aliases tried by the normalizer, in source order (app.js
line 99). -/
def aceDateKeys : List String :=
  ["DateTime", "Date", "TimeStamp", "NewsDate", "CreatedOn", "NewsDateTime"]

/-- Headline field aliases tried by the normalizer, in source order (app.js
line 102). -/
def aceHeadlineKeys : List String :=
  ["Title", "Headline", "NewsHeading", "Heading", "NewsTitle", "NewsDesc"]

/-- Normalization of one upstream record (the body of the map in app.js
lines 96 to 109). -/
def normalizeItem (item : JVal) : NewsRecord :=
  let dateVal := firstTruthy item aceDateKeys .jnull
  let headlineVal := firstTruthy item aceHeadlineKeys (.jstr "")
  { headline := jsTrim (jsToString headlineVal)
    dateRaw := dateVal
    date := formatDateToDDMMYYYY_HHMM (some dateVal) }

/-- List-envelope location (app.js line 93): the first truthy of several
property aliases, defaulting to the envelope itself. -/
def locateList (obj : JVal) : JVal :=
  firstTruthy obj ["NewsList", "ListNewsBean", "newsList", "Data", "News"] obj

/-- Model of `parseAcesphereList` (app.js lines 91 to 113): locate the record
array, normalize each record, and drop records with an empty headline. -/
def parseAcesphereList (obj : JVal) : List NewsRecord :=
  match locateList obj with
  | .jarr items => (items.map normalizeItem).filter (fun r => !(r.headline == ""))
  | _ => []

/-- Failure taxonomy of a fetch strategy. -/
inductive FetchErr where
  | transport
  | upstreamShape
  | malformedPayload
deriving DecidableEq, Repr

/-- Model of `fetchAcesphere` (app.js lines 38 to 60) on a response body text:
a body whose first non-whitespace character is a less-than sign fails with
the upstream-shape error, otherwise the body goes through the JSON parser
(an external collaborator, passed as a parameter) and a parse failure is the
malformed-payload error. -/
def fetchAcesphere (jsonParse : String → Option JVal) (body : String) :
    Except FetchErr JVal :=
  if jsStartsWith (jsTrim body) "<" then .error .upstreamShape
  else
    match jsonParse body with
    | some v => .ok v
    | none => .error .malformedPayload

/-- A headline extracted by the Nirmalbang fallback (app.js line 79): the date
is always null. -/
structure NbRec where
  headline : String
  date : Option String
deriving DecidableEq, Repr

/-- The loop of `fetchNirmalbangHeadlines` (app.js lines 76 to 82) over the
regex captures: strip tags, trim, keep texts longer than five characters,
and stop once ten headlines are collected. -/
def nbCollect : List String → List NbRec → List NbRec
  | [], acc => acc
  | m :: ms, acc =>
    let text := jsTrim (stripTags m)
    let acc' := if !(text == "") ∧ 5 < text.length then acc ++ [⟨text, none⟩] else acc
    if 10 ≤ acc'.length then acc' else nbCollect ms acc'

/-- Model of `fetchNirmalbangHeadlines` (app.js lines 63 to 88); the regex
engine is an external collaborator, so the anchor inner-text captures of the
response body are the input. -/
def fetchNirmalbangHeadlines (captures : List String) : List NbRec :=
  nbCollect captures []

/-- The sort comparator of app.js line 147 as a stable before-or-equal test:
descending by time value, and any comparison involving an invalid date is an
equal comparison (a NaN comparator result counts as zero). -/
def dateLe (a b : NewsRecord) : Bool :=
  match jsTimestamp a.dateRaw, jsTimestamp b.dateRaw with
  | some x, some y => decide (y ≤ x)
  | _, _ => true

/-- Model of `sortByDateDesc` (app.js lines 146 to 150): the records with a
truthy raw date, stably sorted by date descending, followed by the records
without one. The host sort is stable, so any stable sort realizes it; the
insertion sort is used here. -/
def sortByDateDesc (arr : List NewsRecord) : List NewsRecord :=
  List.insertionSort (fun a b => dateLe a b = true) (arr.filter fun r => truthy r.dateRaw) ++
    arr.filter (fun r => !truthy r.dateRaw)

/-- The cached projection of a record (app.js lines 156 to 163). -/
structure CanonRec where
  date : String
  headline : String
deriving DecidableEq, Repr

/-- Final projection applied when storing a record in the cache. -/
def finalMap (i : NewsRecord) : CanonRec :=
  ⟨(if i.date == "" then "" else i.date), i.headline⟩

/-- The cache snapshot of app.js lines 17 to 21. -/
structure Cache where
  derivative : List CanonRec
  general : List CanonRec
  lastUpdated : Option String
deriving DecidableEq, Repr

/-- Mapping of a fallback headline into a record (app.js lines 137 to 141). -/
def nbToRecord (n : NbRec) : NewsRecord :=
  { headline := n.headline
    dateRaw := match n.date with
      | some s => if truthy (.jstr s) then .jstr s else .jnull
      | none => .jnull
    date := match n.date with
      | some s => if truthy (.jstr s) then formatDateToDDMMYYYY_HHMM (some (.jstr s)) else ""
      | none => "" }

/-- Model of one refresh cycle, `refreshNewsNow` (app.js lines 116 to 169).
The fetch outcomes of the two ACESPHERE calls and the fallback result enter
as parameters; `now` is the ISO timestamp taken at the end of the cycle.
Each category failure is caught: the derivative becomes empty, the general
falls back to the Nirmalbang headlines. The cycle always stores the sorted,
capped, projected lists and the fresh timestamp. -/
def refreshNewsNow (prev : Cache) (derOut genOut : Except FetchErr JVal)
    (nbResult : List NbRec) (now : String) : Cache :=
  let derivativeItems : List NewsRecord :=
    match derOut with
    | .ok j => parseAcesphereList j
    | .error _ => []
  let generalItems : List NewsRecord :=
    match genOut with
    | .ok j => parseAcesphereList j
    | .error _ => nbResult.map nbToRecord
  let derivativeCapped := (sortByDateDesc derivativeItems).take 4
  let generalCapped := (sortByDateDesc generalItems).take 6
  { derivative := derivativeCapped.map finalMap
    general := generalCapped.map finalMap
    lastUpdated := some now }

/-- What the markup fallback strategy alone produces for the general category
in one cycle, under the general cap and the same ordering rule. -/
def markupAloneGeneral (nbResult : List NbRec) : List CanonRec :=
  ((sortByDateDesc (nbResult.map nbToRecord)).take 6).map finalMap

/-! ## app.js: cache accessor with an explicit array heap (reference model) -/

/-- A heap of JavaScript arrays, indexed by reference identity. -/
def ArrHeap : Type :=
  Nat → List CanonRec

/-- The cache object holding references to its two arrays (the in-memory
`cached` of app.js lines 17 to 21). -/
structure CacheRefs where
  derivative : Nat
  general : Nat
  lastUpdated : Option String
deriving DecidableEq, Repr

/-- Model of `getCachedNews` (app.js lines 180 to 186): a new top-level object
whose fields copy the references held by the cache (a shallow copy). -/
def getCachedNews (c : CacheRefs) : CacheRefs :=
  { derivative := c.derivative, general := c.general, lastUpdated := c.lastUpdated }

/-- Push an element onto the array behind a reference (a JavaScript in-place
`push` through that reference). -/
def heapPush (h : ArrHeap) (r : Nat) (x : CanonRec) : ArrHeap :=
  fun i => if i = r then h i ++ [x] else h i

/-- The observable contents of the cache under a heap. -/
def readCacheView (h : ArrHeap) (c : CacheRefs) : Cache :=
  { derivative := h c.derivative, general := h c.general, lastUpdated := c.lastUpdated }

/-! ## server.js: HTML parser and the /news endpoint handler -/

/-- A record served by server.js. -/
structure SrvRec where
  date : String
  headline : String
deriving DecidableEq, Repr

/-- Model of `formatDate` (server.js lines 19 to 21): replace every
non-breaking-space entity by a space, remove the first Hrs IST suffix, trim. -/
def srvFormatDate (d : String) : String :=
  jsTrim (replaceFirstStr "Hrs IST" "" (replaceAllStr "&nbsp;" " " d))

/-- A matched news container: the text content of its headline node and of its
date node (the Cheerio queries are an external collaborator). -/
structure HtmlItem where
  headText : String
  dateText : String
deriving DecidableEq, Repr

/-- The loop body of `parseHtmlNews` (server.js lines 28 to 33) over the
matched containers, accumulating into the news array. -/
def parseHtmlNewsLoop : List HtmlItem → List SrvRec → List SrvRec
  | [], acc => acc
  | el :: rest, acc =>
    let headline := jsTrim el.headText
    let date := jsTrim el.dateText
    parseHtmlNewsLoop rest
      (if !(headline == "") ∧ !(date == "") then acc ++ [⟨srvFormatDate date, headline⟩]
       else acc)

/-- Model of `parseHtmlNews` (server.js lines 24 to 36). -/
def parseHtmlNews (items : List HtmlItem) : List SrvRec :=
  parseHtmlNewsLoop items []

/-- The server cache object (server.js line 15). -/
structure SrvCache where
  general : List SrvRec
  derivative : List SrvRec
deriving DecidableEq, Repr

/-- The mutable state of server.js: the cache object and the fetch stamp. -/
structure SrvState where
  cachedNews : SrvCache
  lastFetched : Int
deriving DecidableEq, Repr

/-- The cache TTL of server.js line 17, in milliseconds. -/
def CACHE_TTL : Int :=
  60 * 1000

/-- The outcome of one /news request: the JSON response body, the state after
the request, and whether a fresh fetch was attempted. -/
structure NewsResponse where
  response : SrvCache
  state : SrvState
  attemptedFetch : Bool
deriving DecidableEq, Repr

/-- Model of the /news handler (server.js lines 47 to 75). Within the TTL the
cached object is served without fetching. Past the TTL both categories are
fetched; if both succeed the cache and stamp are replaced and the fresh data
served, and if either fails the previously cached object is served with the
state untouched. -/
def newsHandler (st : SrvState) (now : Int)
    (genOut derOut : Except Unit (List SrvRec)) : NewsResponse :=
  if now - st.lastFetched < CACHE_TTL then
    { response := st.cachedNews, state := st, attemptedFetch := false }
  else
    match genOut, derOut with
    | .ok general, .ok derivative =>
      let fresh : SrvCache := { general := general, derivative := derivative }
      { response := fresh, state := { cachedNews := fresh, lastFetched := now },
        attemptedFetch := true }
    | _, _ =>
      { response := st.cachedNews, state := st, attemptedFetch := true }

/-! ## Bounded check combinator (balanced, for kernel evaluation) -/

/-- Conjunction of a predicate over a contiguous range, by linear scan. -/
def scanAux (p : Nat → Bool) : Nat → Nat → Bool
  | 0, _ => true
  | k + 1, i => p i && scanAux p k (i + 1)

/-- Conjunction of a predicate over a contiguous range, as a balanced tree so
the kernel can evaluate large ranges without deep recursion. -/
def ballAux (p : Nat → Bool) : Nat → Nat → Nat → Bool
  | 0, lo, size => scanAux p size lo
  | fuel + 1, lo, size =>
    if size ≤ 8 then scanAux p size lo
    else ballAux p fuel lo (size / 2) && ballAux p fuel (lo + size / 2) (size - size / 2)

/-! ## Concrete inputs used by witnesses and counterexamples -/

/-- The structured payload of the spec scenario: two records A and B with ISO
date-times. -/
def acespherePayloadAB : JVal :=
  .jobj [("NewsList", .jarr [
    .jobj [("Title", .jstr "A"), ("DateTime", .jstr "2024-01-02T15:04:00Z")],
    .jobj [("Title", .jstr "B"), ("DateTime", .jstr "2024-01-03T09:00:00Z")]])]

/-- An upstream record whose headline is whitespace only. -/
def blankHeadlineItem : JVal :=
  .jobj [("Title", .jstr "   "), ("DateTime", .jstr "2024-01-02T15:04:00Z")]

/-- Decidable day-of-year bound at one input, used by the range check. -/
def doyCheck (d : Nat) : Bool :=
  decide (civilDoy d ≤ 365)

/-! ## Sorting lemmas -/

theorem pairwise_orderedInsert_local (le : NewsRecord → NewsRecord → Bool)
    (hto : ∀ a b, le a b = true ∨ le b a = true) (a : NewsRecord) (l : List NewsRecord)
    (htr : ∀ x ∈ a :: l, ∀ y ∈ a :: l, ∀ z ∈ a :: l,
      le x y = true → le y z = true → le x z = true)
    (hs : l.Pairwise (fun x y => le x y = true)) :
    (List.orderedInsert (fun x y => le x y = true) a l).Pairwise
      (fun x y => le x y = true) := by
  induction l with
  | nil => simp
  | cons b t ih =>
    obtain ⟨hb, ht⟩ := List.pairwise_cons.mp hs
    by_cases hab : le a b = true
    · rw [List.orderedInsert, if_pos hab]
      refine List.pairwise_cons.mpr ⟨?_, hs⟩
      intro y hy
      rcases List.mem_cons.mp hy with rfl | hyt
      · exact hab
      · exact htr a (by simp) b (by simp) y (by simp [hyt]) hab (hb y hyt)
    · rw [List.orderedInsert, if_neg hab]
      have hba : le b a = true := (hto a b).resolve_left hab
      refine List.pairwise_cons.mpr ⟨?_, ?_⟩
      · intro y hy
        rcases (List.mem_orderedInsert _).mp hy with rfl | hyt
        · exact hba
        · exact hb y hyt
      · have sub : ∀ w, w ∈ a :: t → w ∈ a :: b :: t := by
          intro w hw
          rcases List.mem_cons.mp hw with rfl | hw2
          · exact List.mem_cons_self _ _
          · exact List.mem_cons_of_mem _ (List.mem_cons_of_mem _ hw2)
        exact ih (fun x hx y hy z hz => htr x (sub x hx) y (sub y hy) z (sub z hz)) ht

theorem pairwise_insertionSort_local (le : NewsRecord → NewsRecord → Bool)
    (hto : ∀ a b, le a b = true ∨ le b a = true) (l : List NewsRecord)
    (htr : ∀ x ∈ l, ∀ y ∈ l, ∀ z ∈ l, le x y = true → le y z = true → le x z = true) :
    (List.insertionSort (fun x y => le x y = true) l).Pairwise
      (fun x y => le x y = true) := by
  induction l with
  | nil => simp
  | cons b t ih =>
    have hmem : ∀ x ∈ b :: List.insertionSort (fun x y => le x y = true) t, x ∈ b :: t := by
      intro x hx
      rcases List.mem_cons.mp hx with rfl | h
      · simp
      · exact List.mem_cons.mpr (Or.inr ((List.perm_insertionSort _ t).mem_iff.mp h))
    exact pairwise_orderedInsert_local le hto b _
      (fun x hx y hy z hz => htr x (hmem x hx) y (hmem y hy) z (hmem z hz))
      (ih (fun x hx y hy z hz => htr x (by simp [hx]) y (by simp [hy]) z (by simp [hz])))

theorem dateLe_total (a b : NewsRecord) : dateLe a b = true ∨ dateLe b a = true := by
  unfold dateLe
  rcases jsTimestamp a.dateRaw with _ | x <;> rcases jsTimestamp b.dateRaw with _ | y <;>
    simp <;> omega

theorem sortByDateDesc_perm (arr : List NewsRecord) :
    List.Perm (sortByDateDesc arr) arr := by
  unfold sortByDateDesc
  exact ((List.perm_insertionSort _ _).append_right _).trans (List.filter_append_perm _ arr)

theorem sortByDateDesc_of_truthy (arr : List NewsRecord)
    (h : ∀ r ∈ arr, truthy r.dateRaw = true) :
    sortByDateDesc arr = List.insertionSort (fun x y => dateLe x y = true) arr := by
  unfold sortByDateDesc
  rw [List.filter_eq_self.mpr h, List.filter_eq_nil_iff.mpr (by simp_all), List.append_nil]

theorem sortByDateDesc_pairwise (arr : List NewsRecord)
    (hv : ∀ r ∈ arr, truthy r.dateRaw = true ∧ (jsTimestamp r.dateRaw).isSome = true) :
    (sortByDateDesc arr).Pairwise (fun x y => dateLe x y = true) := by
  rw [sortByDateDesc_of_truthy arr (fun r hr => (hv r hr).1)]
  refine pairwise_insertionSort_local dateLe dateLe_total arr ?_
  intro x hx y hy z hz hxy hyz
  obtain ⟨tx, hxs⟩ := Option.isSome_iff_exists.mp (hv x hx).2
  obtain ⟨ty, hys⟩ := Option.isSome_iff_exists.mp (hv y hy).2
  obtain ⟨tz, hzs⟩ := Option.isSome_iff_exists.mp (hv z hz).2
  unfold dateLe at hxy hyz ⊢
  rw [hxs, hys] at hxy
  rw [hys, hzs] at hyz
  rw [hxs, hzs]
  simp only [decide_eq_true_eq] at hxy hyz ⊢
  omega

/-! ## Trim lemmas -/

theorem dropWhile_idem (p : Char → Bool) (l : List Char) :
    (l.dropWhile p).dropWhile p = l.dropWhile p := by
  induction l with
  | nil => rfl
  | cons c cs ih =>
    by_cases h : p c
    · simp [List.dropWhile, h, ih]
    · simp [List.dropWhile, h]

theorem dropWhile_head_false (p : Char → Bool) (l : List Char) (c : Char) (t : List Char)
    (h : l.dropWhile p = c :: t) : p c = false := by
  induction l with
  | nil => simp [List.dropWhile] at h
  | cons a l ih =>
    by_cases ha : p a
    · rw [List.dropWhile_cons_of_pos ha] at h
      exact ih h
    · rw [List.dropWhile_cons_of_neg ha] at h
      cases h
      exact Bool.not_eq_true _ |>.mp ha

theorem trimCh_idem (l : List Char) : trimCh (trimCh l) = trimCh l := by
  unfold trimCh
  set l1 := l.dropWhile wsChar with hl1
  have hself : l1.dropWhile wsChar = l1 := dropWhile_idem wsChar l
  set m := l1.reverse.dropWhile wsChar with hm
  have hdrop : m.reverse.dropWhile wsChar = m.reverse := by
    rcases he : m.reverse with _ | ⟨c, t⟩
    · rfl
    · have hpref : c :: t <+: l1 := by
        rw [← he]
        have h1 : l1.reverse.dropWhile wsChar <:+ l1.reverse := List.dropWhile_suffix wsChar
        rw [← hm] at h1
        have h2 := List.reverse_prefix.mpr h1
        rwa [List.reverse_reverse] at h2
      have hc : wsChar c = false := by
        obtain ⟨t2, ht2⟩ := hpref
        refine dropWhile_head_false wsChar l c (t ++ t2) ?_
        rw [← hl1]
        exact ht2.symm
      exact List.dropWhile_cons_of_neg (by simp [hc])
  rw [hdrop, List.reverse_reverse, hm, dropWhile_idem]

theorem jsTrim_idem (s : String) : jsTrim (jsTrim s) = jsTrim s := by
  unfold jsTrim
  exact congrArg String.mk (trimCh_idem s.data)

/-! ## Decimal rendering lemmas -/

theorem digitChar_isDigit (n : Nat) : (digitChar n).isDigit = true := by
  unfold digitChar
  split <;> decide

theorem natDigitsAux_fuel (f1 : Nat) :
    ∀ f2 n, n < f1 → n < f2 → natDigitsAux f1 n = natDigitsAux f2 n := by
  induction f1 with
  | zero => intro f2 n h1 _; omega
  | succ g ih =>
    intro f2 n h1 h2
    cases f2 with
    | zero => omega
    | succ g2 =>
      by_cases h : n < 10
      · simp [natDigitsAux, h]
      · simp only [natDigitsAux, if_neg h]
        rw [ih g2 (n / 10) (by omega) (by omega)]

theorem natDigits_lt10 (n : Nat) (h : n < 10) : natDigits n = [digitChar n] := by
  unfold natDigits
  simp [natDigitsAux, h]

theorem natDigits_step (n : Nat) (h : 10 ≤ n) :
    natDigits n = natDigits (n / 10) ++ [digitChar (n % 10)] := by
  show natDigitsAux (n + 1) n = natDigits (n / 10) ++ [digitChar (n % 10)]
  rw [show natDigitsAux (n + 1) n =
    if n < 10 then [digitChar n]
    else natDigitsAux n (n / 10) ++ [digitChar (n % 10)] from rfl]
  rw [if_neg (by omega)]
  congr 1
  exact natDigitsAux_fuel n (n / 10 + 1) (n / 10) (by omega) (by omega)

theorem natDigitsAux_digits (f : Nat) :
    ∀ n, ∀ c ∈ natDigitsAux f n, c.isDigit = true := by
  induction f with
  | zero => intro n c hc; simp [natDigitsAux] at hc
  | succ g ih =>
    intro n c hc
    by_cases h : n < 10
    · simp [natDigitsAux, h] at hc
      rw [hc]
      exact digitChar_isDigit n
    · simp only [natDigitsAux, if_neg h, List.mem_append, List.mem_singleton] at hc
      rcases hc with hc | hc
      · exact ih (n / 10) c hc
      · rw [hc]
        exact digitChar_isDigit (n % 10)

theorem mask_natDigits (n : Nat) :
    (natDigits n).map maskDigit = List.replicate (natDigits n).length 'd' := by
  refine List.eq_replicate_iff.mpr ⟨by simp, ?_⟩
  intro b hb
  obtain ⟨c, hc, hbc⟩ := List.mem_map.mp hb
  rw [← hbc]
  unfold maskDigit
  rw [natDigitsAux_digits (n + 1) n c hc]
  rfl

theorem natDigits_len2 (n : Nat) (h1 : 10 ≤ n) (h2 : n < 100) :
    (natDigits n).length = 2 := by
  rw [natDigits_step n h1, natDigits_lt10 (n / 10) (by omega)]
  rfl

theorem natDigits_len4 (n : Nat) (h1 : 1000 ≤ n) (h2 : n < 10000) :
    (natDigits n).length = 4 := by
  rw [natDigits_step n (by omega), natDigits_step (n / 10) (by omega),
    natDigits_step (n / 10 / 10) (by omega), natDigits_lt10 (n / 10 / 10 / 10) (by omega)]
  rfl

theorem mask_pad2 (k : Nat) (h : k < 100) : (pad2 k).data.map maskDigit = ['d', 'd'] := by
  unfold pad2 natToString
  by_cases h10 : k < 10
  · rw [if_pos h10]
    rw [String.data_append]
    show List.map maskDigit (['0'] ++ natDigits k) = ['d', 'd']
    rw [List.map_append, mask_natDigits, natDigits_lt10 k h10]
    rfl
  · rw [if_neg h10]
    show (natDigits k).map maskDigit = ['d', 'd']
    rw [mask_natDigits, natDigits_len2 k (by omega) h]
    rfl

theorem mask_intToString (y : Int) (h1 : 1000 ≤ y) (h2 : y ≤ 9999) :
    (intToString y).data.map maskDigit = ['d', 'd', 'd', 'd'] := by
  unfold intToString natToString
  rw [if_neg (by omega)]
  show (natDigits y.natAbs).map maskDigit = ['d', 'd', 'd', 'd']
  rw [mask_natDigits, natDigits_len4 y.natAbs (by omega) (by omega)]
  rfl

theorem natDigits_ne_nil (n : Nat) : natDigits n ≠ [] := by
  show natDigitsAux (n + 1) n ≠ []
  by_cases h : n < 10 <;> simp [natDigitsAux, h]

theorem pad2_data_ne_nil (k : Nat) : (pad2 k).data ≠ [] := by
  unfold pad2 natToString
  by_cases h : k < 10
  · rw [if_pos h, String.data_append]
    simp
  · rw [if_neg h]
    exact natDigits_ne_nil k

theorem fmtDT_ne_empty (dt : DT) : fmtDT dt ≠ "" := by
  intro h
  have hdata := congrArg String.data h
  unfold fmtDT at hdata
  simp only [String.data_append, List.append_eq_nil] at hdata
  exact pad2_data_ne_nil dt.day (by tauto)

theorem fmtDT_shape (dt : DT) (hd : dt.day < 100) (hm : dt.month < 100)
    (hh : dt.hour < 100) (hmi : dt.minute < 100)
    (hy1 : 1000 ≤ dt.year) (hy2 : dt.year ≤ 9999) :
    isCanonicalDateShape (fmtDT dt) = true := by
  unfold isCanonicalDateShape fmtDT
  simp only [String.data_append, List.map_append]
  rw [mask_pad2 _ hd, mask_pad2 _ hm, mask_pad2 _ hh, mask_pad2 _ hmi,
    mask_intToString _ hy1 hy2]
  decide

/-! ## Range-check correctness and the day-of-year bound -/

theorem scanAux_correct (p : Nat → Bool) :
    ∀ k i, scanAux p k i = true → ∀ j, i ≤ j → j < i + k → p j = true := by
  intro k
  induction k with
  | zero => intro i _ j h1 h2; omega
  | succ m ih =>
    intro i h j h1 h2
    rw [scanAux] at h
    simp only [Bool.and_eq_true] at h
    rcases h with ⟨hp, hs⟩
    by_cases hj : j = i
    · rw [hj]; exact hp
    · exact ih (i + 1) hs j (by omega) (by omega)

theorem ballAux_correct (p : Nat → Bool) :
    ∀ fuel lo size, ballAux p fuel lo size = true →
      ∀ j, lo ≤ j → j < lo + size → p j = true := by
  intro fuel
  induction fuel with
  | zero => exact fun lo size h => scanAux_correct p size lo h
  | succ m ih =>
    intro lo size h j h1 h2
    by_cases hs : size ≤ 8
    · rw [ballAux, if_pos hs] at h
      exact scanAux_correct p size lo h j h1 h2
    · rw [ballAux, if_neg hs] at h
      simp only [Bool.and_eq_true] at h
      rcases h with ⟨ha, hb⟩
      by_cases hj : j < lo + size / 2
      · exact ih lo (size / 2) ha j h1 hj
      · exact ih (lo + size / 2) (size - size / 2) hb j (by omega) (by omega)

set_option maxHeartbeats 1600000 in
theorem civilDoyRange0 : ballAux doyCheck 20 0 18263 = true := by
  decide

set_option maxHeartbeats 1600000 in
theorem civilDoyRange1 : ballAux doyCheck 20 18263 18263 = true := by
  decide

set_option maxHeartbeats 1600000 in
theorem civilDoyRange2 : ballAux doyCheck 20 36526 18263 = true := by
  decide

set_option maxHeartbeats 1600000 in
theorem civilDoyRange3 : ballAux doyCheck 20 54789 18263 = true := by
  decide

set_option maxHeartbeats 1600000 in
theorem civilDoyRange4 : ballAux doyCheck 20 73052 18263 = true := by
  decide

set_option maxHeartbeats 1600000 in
theorem civilDoyRange5 : ballAux doyCheck 20 91315 18263 = true := by
  decide

set_option maxHeartbeats 1600000 in
theorem civilDoyRange6 : ballAux doyCheck 20 109578 18263 = true := by
  decide

set_option maxHeartbeats 1600000 in
theorem civilDoyRange7 : ballAux doyCheck 20 127841 18256 = true := by
  decide

theorem civilDoy_le (doe : Nat) (h : doe < 146097) : civilDoy doe ≤ 365 := by
  have hcase : ∀ lo size, ballAux doyCheck 20 lo size = true →
      lo ≤ doe → doe < lo + size → civilDoy doe ≤ 365 := by
    intro lo size hb h1 h2
    exact of_decide_eq_true (ballAux_correct doyCheck 20 lo size hb doe h1 h2)
  by_cases hc0 : doe < 18263
  · exact hcase 0 18263 civilDoyRange0 (by omega) (by omega)
  by_cases hc1 : doe < 36526
  · exact hcase 18263 18263 civilDoyRange1 (by omega) (by omega)
  by_cases hc2 : doe < 54789
  · exact hcase 36526 18263 civilDoyRange2 (by omega) (by omega)
  by_cases hc3 : doe < 73052
  · exact hcase 54789 18263 civilDoyRange3 (by omega) (by omega)
  by_cases hc4 : doe < 91315
  · exact hcase 73052 18263 civilDoyRange4 (by omega) (by omega)
  by_cases hc5 : doe < 109578
  · exact hcase 91315 18263 civilDoyRange5 (by omega) (by omega)
  by_cases hc6 : doe < 127841
  · exact hcase 109578 18263 civilDoyRange6 (by omega) (by omega)
  exact hcase 127841 18256 civilDoyRange7 (by omega) (by omega)

theorem civilMp_le (doe : Nat) (h : doe < 146097) : civilMp doe ≤ 11 := by
  have := civilDoy_le doe h
  unfold civilMp
  omega

theorem civilMonth_bounds (doe : Nat) (h : doe < 146097) :
    1 ≤ civilMonth doe ∧ civilMonth doe ≤ 12 := by
  have := civilMp_le doe h
  unfold civilMonth
  split <;> omega

theorem civilDay_bounds (doe : Nat) (h : doe < 146097) :
    1 ≤ civilDay doe ∧ civilDay doe ≤ 31 := by
  have h1 := civilDoy_le doe h
  unfold civilDay civilMp at *
  omega

/-! ## Parser bounds lemmas -/

theorem daysInMonth_le (y : Int) (m : Nat) : daysInMonth y m ≤ 31 := by
  unfold daysInMonth
  split <;> first | omega | split <;> omega

theorem mkValidDT_bounds (y : Int) (mo da hh mm ss : Nat) (dt : DT)
    (h : mkValidDT y mo da hh mm ss = some dt) :
    1 ≤ dt.month ∧ dt.month ≤ 12 ∧ 1 ≤ dt.day ∧ dt.day ≤ 31 ∧
      dt.hour ≤ 23 ∧ dt.minute ≤ 59 := by
  unfold mkValidDT at h
  split at h
  · cases h
    rename_i hg
    have := daysInMonth_le y mo
    simp only []
    omega
  · exact absurd h (by simp)

theorem parseISO_bounds (s : String) (dt : DT) (h : parseISO s = some dt) :
    1 ≤ dt.month ∧ dt.month ≤ 12 ∧ 1 ≤ dt.day ∧ dt.day ≤ 31 ∧
      dt.hour ≤ 23 ∧ dt.minute ≤ 59 := by
  unfold parseISO at h
  obtain ⟨f, _, hmk⟩ := Option.bind_eq_some.mp h
  exact mkValidDT_bounds _ _ _ _ _ _ dt hmk

theorem epochToDT_bounds (ms : Int) :
    1 ≤ (epochToDT ms).month ∧ (epochToDT ms).month ≤ 12 ∧
      1 ≤ (epochToDT ms).day ∧ (epochToDT ms).day ≤ 31 ∧
      (epochToDT ms).hour ≤ 23 ∧ (epochToDT ms).minute ≤ 59 := by
  have hmonth : (epochToDT ms).month =
      civilMonth ((ms.ediv 86400000 + 719468).emod 146097).toNat := rfl
  have hday : (epochToDT ms).day =
      civilDay ((ms.ediv 86400000 + 719468).emod 146097).toNat := rfl
  have hhour : (epochToDT ms).hour = (ms.emod 86400000).toNat / 3600000 := rfl
  have hminute : (epochToDT ms).minute = (ms.emod 86400000).toNat % 3600000 / 60000 := rfl
  have hdoe : ((ms.ediv 86400000 + 719468).emod 146097).toNat < 146097 := by
    have h1 : (0 : Int) ≤ (ms.ediv 86400000 + 719468).emod 146097 :=
      Int.emod_nonneg _ (by norm_num)
    have h2 : (ms.ediv 86400000 + 719468).emod 146097 < 146097 :=
      Int.emod_lt_of_pos _ (by norm_num)
    omega
  have hmsod : (ms.emod 86400000).toNat < 86400000 := by
    have h1 : (0 : Int) ≤ ms.emod 86400000 := Int.emod_nonneg _ (by norm_num)
    have h2 : ms.emod 86400000 < 86400000 := Int.emod_lt_of_pos _ (by norm_num)
    omega
  obtain ⟨hm1, hm2⟩ := civilMonth_bounds _ hdoe
  obtain ⟨hd1, hd2⟩ := civilDay_bounds _ hdoe
  rw [hmonth, hday, hhour, hminute]
  refine ⟨hm1, hm2, hd1, hd2, by omega, by omega⟩

theorem jsNewDate_bounds (v : JVal) (dt : DT) (h : jsNewDate v = some dt) :
    1 ≤ dt.month ∧ dt.month ≤ 12 ∧ 1 ≤ dt.day ∧ dt.day ≤ 31 ∧
      dt.hour ≤ 23 ∧ dt.minute ≤ 59 := by
  cases v with
  | jstr s =>
    simp only [jsNewDate] at h
    exact parseISO_bounds s dt h
  | jnum n =>
    simp only [jsNewDate] at h
    split at h
    · cases h; exact epochToDT_bounds n
    · exact absurd h (by simp)
  | jbool b =>
    simp only [jsNewDate] at h
    cases h
    exact epochToDT_bounds _
  | jnull =>
    simp only [jsNewDate] at h
    cases h
    exact epochToDT_bounds 0
  | jarr xs => exact absurd h (by simp [jsNewDate])
  | jobj fs => exact absurd h (by simp [jsNewDate])

/-! ## Formatter lemmas -/

theorem format_eq_empty_iff (d : Option JVal) :
    formatDateToDDMMYYYY_HHMM d = "" ↔ jsDateValue d = none := by
  cases d with
  | none => simp [formatDateToDDMMYYYY_HHMM, jsDateValue]
  | some v =>
    simp only [formatDateToDDMMYYYY_HHMM, jsDateValue]
    by_cases ht : truthy v
    · rw [if_pos ht, if_pos ht]
      cases hn : jsNewDate v with
      | none => simp
      | some dt => simpa using fmtDT_ne_empty dt
    · rw [if_neg ht, if_neg ht]
      simp

theorem format_shape (d : Option JVal) (dt : DT) (h : jsDateValue d = some dt)
    (hy1 : 1000 ≤ dt.year) (hy2 : dt.year ≤ 9999) :
    isCanonicalDateShape (formatDateToDDMMYYYY_HHMM d) = true := by
  cases d with
  | none => simp [jsDateValue] at h
  | some v =>
    simp only [jsDateValue] at h
    by_cases ht : truthy v
    · rw [if_pos ht] at h
      have hfmt : formatDateToDDMMYYYY_HHMM (some v) = fmtDT dt := by
        simp only [formatDateToDDMMYYYY_HHMM]
        rw [if_pos ht, h]
      rw [hfmt]
      obtain ⟨h1, h2, h3, h4, h5, h6⟩ := jsNewDate_bounds v dt h
      exact fmtDT_shape dt (by omega) (by omega) (by omega) (by omega) hy1 hy2
    · rw [if_neg ht] at h
      exact absurd h (by simp)

/-! ## Fallback extractor lemmas -/

theorem nbCollect_length : ∀ (ms : List String) (acc : List NbRec),
    acc.length ≤ 9 → (nbCollect ms acc).length ≤ 10 := by
  intro ms
  induction ms with
  | nil => intro acc h; simp only [nbCollect]; omega
  | cons m rest ih =>
    intro acc h
    simp only [nbCollect]
    by_cases hc : !(jsTrim (stripTags m) == "") ∧ 5 < (jsTrim (stripTags m)).length
    · rw [if_pos hc]
      by_cases hb : 10 ≤ (acc ++ [(⟨jsTrim (stripTags m), none⟩ : NbRec)]).length
      · rw [if_pos hb]
        simp only [List.length_append, List.length_singleton]
        omega
      · rw [if_neg hb]
        refine ih _ ?_
        simp only [List.length_append, List.length_singleton] at hb ⊢
        omega
    · rw [if_neg hc]
      by_cases hb : 10 ≤ acc.length
      · rw [if_pos hb]; omega
      · rw [if_neg hb]; exact ih _ h

theorem nbCollect_mem : ∀ (ms : List String) (acc : List NbRec),
    (∀ r ∈ acc, r.headline ≠ "" ∧ 5 < r.headline.length) →
    ∀ r ∈ nbCollect ms acc, r.headline ≠ "" ∧ 5 < r.headline.length := by
  intro ms
  induction ms with
  | nil => intro acc h; simp only [nbCollect]; exact h
  | cons m rest ih =>
    intro acc h
    simp only [nbCollect]
    by_cases hc : !(jsTrim (stripTags m) == "") ∧ 5 < (jsTrim (stripTags m)).length
    · rw [if_pos hc]
      have hacc : ∀ r ∈ acc ++ [(⟨jsTrim (stripTags m), none⟩ : NbRec)],
          r.headline ≠ "" ∧ 5 < r.headline.length := by
        intro r hr
        rcases List.mem_append.mp hr with hr | hr
        · exact h r hr
        · rcases List.mem_singleton.mp hr with rfl
          exact ⟨by simpa using hc.1, hc.2⟩
      by_cases hb : 10 ≤ (acc ++ [(⟨jsTrim (stripTags m), none⟩ : NbRec)]).length
      · rw [if_pos hb]; exact hacc
      · rw [if_neg hb]; exact ih _ hacc
    · rw [if_neg hc]
      by_cases hb : 10 ≤ acc.length
      · rw [if_pos hb]; exact h
      · rw [if_neg hb]; exact ih _ h

/-! ## HTML parser characterization -/

theorem parseHtmlNewsLoop_eq : ∀ (items : List HtmlItem) (acc : List SrvRec),
    parseHtmlNewsLoop items acc = acc ++
      (items.filter (fun el => !(jsTrim el.headText == "") && !(jsTrim el.dateText == ""))).map
        (fun el => ⟨srvFormatDate (jsTrim el.dateText), jsTrim el.headText⟩) := by
  intro items
  induction items with
  | nil => intro acc; simp [parseHtmlNewsLoop]
  | cons el rest ih =>
    intro acc
    simp only [parseHtmlNewsLoop]
    by_cases hc : !(jsTrim el.headText == "") ∧ !(jsTrim el.dateText == "")
    · rw [if_pos hc, ih]
      rw [List.filter_cons_of_pos (by simp [hc.1, hc.2])]
      simp
    · rw [if_neg hc, ih]
      rw [List.filter_cons_of_neg (by
        intro hcontra
        simp only [Bool.and_eq_true] at hcontra
        exact hc ⟨hcontra.1, hcontra.2⟩)]

/-! ## Helper equations for the refresh cycle -/

theorem refresh_general_eq (prev : Cache) (derOut genOut : Except FetchErr JVal)
    (nb : List NbRec) (now : String) :
    (refreshNewsNow prev derOut genOut nb now).general =
      ((sortByDateDesc (match genOut with
        | .ok j => parseAcesphereList j
        | .error _ => nb.map nbToRecord)).take 6).map finalMap := by
  cases genOut <;> rfl

theorem refresh_derivative_eq (prev : Cache) (derOut genOut : Except FetchErr JVal)
    (nb : List NbRec) (now : String) :
    (refreshNewsNow prev derOut genOut nb now).derivative =
      ((sortByDateDesc (match derOut with
        | .ok j => parseAcesphereList j
        | .error _ => [])).take 4).map finalMap := by
  cases derOut <;> rfl

/-! ## Claim theorems -/

/-- Claim C1, counterexample: a refresh cycle in which both ACESPHERE fetches
fail and the fallback yields nothing does not leave the previous cache
snapshot unchanged — it clears both lists and stamps a new lastUpdated. -/
theorem claim1_counterexample :
    refreshNewsNow
      ⟨[⟨"05-10-2024 10:00", "Old derivative"⟩], [⟨"05-10-2024 10:00", "Old general"⟩],
        some "2024-10-05T10:00:00.000Z"⟩
      (.error .transport) (.error .upstreamShape) [] "2024-10-05T10:30:00.000Z" ≠
    ⟨[⟨"05-10-2024 10:00", "Old derivative"⟩], [⟨"05-10-2024 10:00", "Old general"⟩],
        some "2024-10-05T10:00:00.000Z"⟩ := by
  decide

/-- Claim C1, amended: when every strategy of every category fails (both
fetches throw and the fallback yields nothing), the cycle still completes and
overwrites the cache with empty lists and the fresh timestamp; the previous
snapshot is preserved only if it was already empty. -/
theorem claim1_amended (prev : Cache) (e1 e2 : FetchErr) (now : String) :
    refreshNewsNow prev (.error e1) (.error e2) [] now = ⟨[], [], some now⟩ := by
  rfl

/-- Claim C2: the normalize-sort-cap pipeline on the payload with records A
(2024-01-02 15:04) and B (2024-01-03 09:00) yields exactly B then A with the
canonical formatted dates. -/
theorem claim2_pipeline :
    (refreshNewsNow ⟨[], [], none⟩ (.error .transport) (.ok acespherePayloadAB) []
      "2024-01-03T09:05:00Z").general =
    [⟨"03-01-2024 09:00", "B"⟩, ⟨"02-01-2024 15:04", "A"⟩] := by
  decide

/-- Claim C3: a structured body whose first non-whitespace character is a
less-than sign makes `fetchAcesphere` fail with the upstream-shape error, and
a cycle whose general fetch fails that way produces for the general category
exactly what the markup fallback strategy alone would produce, under the same
cap and ordering rule. -/
theorem claim3_fallback (jsonParse : String → Option JVal) (body : String)
    (hbody : jsStartsWith (jsTrim body) "<" = true)
    (prev : Cache) (derOut : Except FetchErr JVal) (nb : List NbRec) (now : String) :
    fetchAcesphere jsonParse body = .error .upstreamShape ∧
    (refreshNewsNow prev derOut (fetchAcesphere jsonParse body) nb now).general =
      markupAloneGeneral nb := by
  have herr : fetchAcesphere jsonParse body = .error .upstreamShape := by
    unfold fetchAcesphere
    rw [if_pos hbody]
  refine ⟨herr, ?_⟩
  rw [herr]
  rfl

/-- Claim C3, witness at a concrete HTML body and fallback result. -/
theorem claim3_witness :
    jsStartsWith (jsTrim "  <html><body>error page</body></html>") "<" = true ∧
    fetchAcesphere (fun _ => none) "  <html><body>error page</body></html>" =
      .error .upstreamShape ∧
    (refreshNewsNow ⟨[], [], none⟩ (.error .transport)
        (fetchAcesphere (fun _ => none) "  <html><body>error page</body></html>")
        [⟨"Fallback headline", none⟩] "t").general =
      markupAloneGeneral [⟨"Fallback headline", none⟩] :=
  ⟨by decide,
    (claim3_fallback (fun _ => none) _ (by decide) ⟨[], [], none⟩ (.error .transport)
      [⟨"Fallback headline", none⟩] "t").1,
    (claim3_fallback (fun _ => none) _ (by decide) ⟨[], [], none⟩ (.error .transport)
      [⟨"Fallback headline", none⟩] "t").2⟩

/-- Claim C4: every cycle caps the cached general list at 6 and the derivative
list at 4, and when every parsed record of a category carries a valid truthy
raw date, the category result is a prefix of the full parsed list sorted by
date descending (the sorted list being a permutation of the input, pairwise
ordered by the descending date comparator). -/
theorem claim4_caps (prev : Cache) (derOut genOut : Except FetchErr JVal)
    (nb : List NbRec) (now : String) :
    (refreshNewsNow prev derOut genOut nb now).general.length ≤ 6 ∧
    (refreshNewsNow prev derOut genOut nb now).derivative.length ≤ 4 ∧
    (∀ j, derOut = .ok j →
      (∀ r ∈ parseAcesphereList j,
        truthy r.dateRaw = true ∧ (jsTimestamp r.dateRaw).isSome = true) →
      List.Perm (sortByDateDesc (parseAcesphereList j)) (parseAcesphereList j) ∧
      (sortByDateDesc (parseAcesphereList j)).Pairwise (fun a b => dateLe a b = true) ∧
      (refreshNewsNow prev derOut genOut nb now).derivative <+:
        (sortByDateDesc (parseAcesphereList j)).map finalMap) ∧
    (∀ j, genOut = .ok j →
      (∀ r ∈ parseAcesphereList j,
        truthy r.dateRaw = true ∧ (jsTimestamp r.dateRaw).isSome = true) →
      List.Perm (sortByDateDesc (parseAcesphereList j)) (parseAcesphereList j) ∧
      (sortByDateDesc (parseAcesphereList j)).Pairwise (fun a b => dateLe a b = true) ∧
      (refreshNewsNow prev derOut genOut nb now).general <+:
        (sortByDateDesc (parseAcesphereList j)).map finalMap) := by
  refine ⟨?_, ?_, ?_, ?_⟩
  · rw [refresh_general_eq]
    rw [List.map_take]
    simp only [List.length_take]
    exact Nat.min_le_left _ _
  · rw [refresh_derivative_eq]
    rw [List.map_take]
    simp only [List.length_take]
    exact Nat.min_le_left _ _
  · intro j hj hv
    subst hj
    refine ⟨sortByDateDesc_perm _, sortByDateDesc_pairwise _ hv, ?_⟩
    rw [refresh_derivative_eq]
    rw [List.map_take]
    exact List.take_prefix _ _
  · intro j hj hv
    subst hj
    refine ⟨sortByDateDesc_perm _, sortByDateDesc_pairwise _ hv, ?_⟩
    rw [refresh_general_eq]
    rw [List.map_take]
    exact List.take_prefix _ _

/-- Claim C4, witness at the concrete two-record payload. -/
theorem claim4_witness :
    (refreshNewsNow ⟨[], [], none⟩ (.ok acespherePayloadAB) (.ok acespherePayloadAB) []
      "t").general.length ≤ 6 ∧
    (refreshNewsNow ⟨[], [], none⟩ (.ok acespherePayloadAB) (.ok acespherePayloadAB) []
      "t").derivative <+:
      (sortByDateDesc (parseAcesphereList acespherePayloadAB)).map finalMap :=
  ⟨(claim4_caps ⟨[], [], none⟩ (.ok acespherePayloadAB) (.ok acespherePayloadAB) [] "t").1,
    ((claim4_caps ⟨[], [], none⟩ (.ok acespherePayloadAB) (.ok acespherePayloadAB) [] "t").2.2.1
      acespherePayloadAB rfl (by decide)).2.2⟩

/-- Claim C5: every record produced by the normalizer has a headline that is a
trim fixed point and non-empty (hence non-empty after trimming), and an
upstream record whose extracted headline trims to empty is excluded from the
output. -/
theorem claim5_headlines (obj : JVal) :
    (∀ r ∈ parseAcesphereList obj, jsTrim r.headline = r.headline ∧ r.headline ≠ "") ∧
    (∀ item : JVal,
      jsTrim (jsToString (firstTruthy item aceHeadlineKeys (.jstr ""))) = "" →
      normalizeItem item ∉ parseAcesphereList obj) := by
  have hmain : ∀ r ∈ parseAcesphereList obj,
      jsTrim r.headline = r.headline ∧ r.headline ≠ "" := by
    intro r hr
    unfold parseAcesphereList at hr
    rcases hloc : locateList obj with _ | b | n | s | items | fs <;> rw [hloc] at hr
    · exact absurd hr (by simp)
    · exact absurd hr (by simp)
    · exact absurd hr (by simp)
    · exact absurd hr (by simp)
    · have hr2 : r ∈ (items.map normalizeItem).filter (fun r => !(r.headline == "")) := hr
      obtain ⟨hmem, hcond⟩ := List.mem_filter.mp hr2
      obtain ⟨item, _, hitem⟩ := List.mem_map.mp hmem
      constructor
      · rw [← hitem]
        exact jsTrim_idem _
      · simpa using hcond
    · exact absurd hr (by simp)
  refine ⟨hmain, ?_⟩
  intro item hempty hmem
  have := (hmain _ hmem).2
  have hhead : (normalizeItem item).headline = "" := hempty
  exact this hhead

/-- Claim C5, witness: the two-record payload yields trim-fixed non-empty
headlines, and a whitespace-only headline record is excluded. -/
theorem claim5_witness :
    normalizeItem blankHeadlineItem ∉ parseAcesphereList acespherePayloadAB :=
  (claim5_headlines acespherePayloadAB).2 blankHeadlineItem (by decide)

/-- Claim C6, counterexample: the input 0 is timestamp-like and parses as the
epoch date-time, yet the formatter returns the empty string for it because 0
is falsy, contradicting the claim that only null/absent or unparseable inputs
yield the empty string. -/
theorem claim6_counterexample :
    formatDateToDDMMYYYY_HHMM (some (.jnum 0)) = "" ∧
    jsNewDate (.jnum 0) = some ⟨1970, 1, 1, 0, 0, 0⟩ := by
  constructor
  · decide
  · decide

/-- Claim C6, amended: the formatter is total; it returns the empty string
exactly when the input is absent, falsy (null, false, 0, the empty string) or
does not parse as a calendar date-time, and otherwise renders the parsed
fields zero-padded as DD-MM-YYYY HH:MM whenever the parsed year has four
digits (years outside 1000 to 9999 render at their natural width). -/
theorem claim6_amended (d : Option JVal) :
    (formatDateToDDMMYYYY_HHMM d = "" ↔ jsDateValue d = none) ∧
    (∀ dt : DT, jsDateValue d = some dt → 1000 ≤ dt.year → dt.year ≤ 9999 →
      isCanonicalDateShape (formatDateToDDMMYYYY_HHMM d) = true) :=
  ⟨format_eq_empty_iff d, fun dt h h1 h2 => format_shape d dt h h1 h2⟩

/-- Claim C6, witness at a concrete ISO input. -/
theorem claim6_witness :
    jsDateValue (some (.jstr "2024-01-02T15:04:00Z")) = some ⟨2024, 1, 2, 15, 4, 0⟩ ∧
    isCanonicalDateShape
      (formatDateToDDMMYYYY_HHMM (some (.jstr "2024-01-02T15:04:00Z"))) = true :=
  ⟨by decide,
    (claim6_amended (some (.jstr "2024-01-02T15:04:00Z"))).2 ⟨2024, 1, 2, 15, 4, 0⟩
      (by decide) (by decide) (by decide)⟩

/-- Claim C7: the degraded anchor-tag fallback extractor returns at most ten
headlines, each non-empty and never shorter than the five-character
threshold. -/
theorem claim7_fallback_extractor (captures : List String) :
    (fetchNirmalbangHeadlines captures).length ≤ 10 ∧
    ∀ r ∈ fetchNirmalbangHeadlines captures,
      r.headline ≠ "" ∧ ¬ r.headline.length < 5 := by
  constructor
  · exact nbCollect_length captures [] (by simp)
  · intro r hr
    obtain ⟨h1, h2⟩ := nbCollect_mem captures [] (by simp) r hr
    exact ⟨h1, by omega⟩

/-- Claim C7, witness at a concrete capture list. -/
theorem claim7_witness :
    (fetchNirmalbangHeadlines ["<b>Hello world</b>", "hi", "ok"]).length ≤ 10 ∧
    ((⟨"Hello world", none⟩ : NbRec).headline ≠ "" ∧
      ¬ (⟨"Hello world", none⟩ : NbRec).headline.length < 5) :=
  ⟨(claim7_fallback_extractor ["<b>Hello world</b>", "hi", "ok"]).1,
    (claim7_fallback_extractor ["<b>Hello world</b>", "hi", "ok"]).2
      ⟨"Hello world", none⟩ (by decide)⟩

/-- Claim C8, counterexample: pushing a record through the array reference
returned by the accessor changes what a subsequent cache read observes, so
mutating the returned value does not leave the cache unchanged. -/
theorem claim8_counterexample :
    readCacheView
      (heapPush (fun i => if i = 1 then [⟨"05-10-2024 10:00", "Old"⟩] else [])
        (getCachedNews ⟨0, 1, some "t"⟩).general ⟨"", "Injected"⟩)
      ⟨0, 1, some "t"⟩ ≠
    readCacheView (fun i => if i = 1 then [⟨"05-10-2024 10:00", "Old"⟩] else [])
      ⟨0, 1, some "t"⟩ := by
  decide

/-- Claim C8, amended: the accessor returns a fresh top-level object (so
reassigning its fields cannot touch the cache), but its general and
derivative fields alias the cache-internal arrays, so an in-place append
through the returned general reference is visible in the next read. -/
theorem claim8_amended (h : ArrHeap) (c : CacheRefs) (x : CanonRec)
    (hdist : c.derivative ≠ c.general) :
    (getCachedNews c).general = c.general ∧
    (getCachedNews c).derivative = c.derivative ∧
    readCacheView (heapPush h (getCachedNews c).general x) c =
      ⟨(readCacheView h c).derivative, (readCacheView h c).general ++ [x],
        (readCacheView h c).lastUpdated⟩ := by
  refine ⟨rfl, rfl, ?_⟩
  unfold readCacheView heapPush getCachedNews
  simp [hdist]

/-- Claim C8, witness at a concrete heap and cache. -/
theorem claim8_witness :
    readCacheView
      (heapPush (fun i => if i = 1 then [⟨"05-10-2024 10:00", "Old"⟩] else [])
        (getCachedNews ⟨0, 1, some "t"⟩).general ⟨"", "Injected"⟩)
      ⟨0, 1, some "t"⟩ =
    ⟨[], [⟨"05-10-2024 10:00", "Old"⟩, ⟨"", "Injected"⟩], some "t"⟩ := by
  have := (claim8_amended (fun i => if i = 1 then [⟨"05-10-2024 10:00", "Old"⟩] else [])
    ⟨0, 1, some "t"⟩ ⟨"", "Injected"⟩ (by decide)).2.2
  rw [this]
  decide

/-- Claim C9: past the TTL, a request whose upstream fetch fails (either
category) is answered with the previously cached news object and leaves the
state (cache and stamp) unchanged, so any later request past the TTL still
attempts a fresh fetch. -/
theorem claim9_failed_fetch (st : SrvState) (now : Int)
    (genOut derOut : Except Unit (List SrvRec))
    (httl : CACHE_TTL ≤ now - st.lastFetched)
    (hfail : genOut = .error () ∨ derOut = .error ()) :
    newsHandler st now genOut derOut = ⟨st.cachedNews, st, true⟩ ∧
    (∀ (now2 : Int) (g2 d2 : Except Unit (List SrvRec)),
      CACHE_TTL ≤ now2 - st.lastFetched →
      (newsHandler st now2 g2 d2).attemptedFetch = true) := by
  have hne : ¬ (now - st.lastFetched < CACHE_TTL) := by omega
  refine ⟨?_, ?_⟩
  · simp only [newsHandler, if_neg hne]
    rcases hfail with h | h
    · subst h
      cases derOut <;> rfl
    · subst h
      cases genOut <;> rfl
  · intro now2 g2 d2 h2
    have hne2 : ¬ (now2 - st.lastFetched < CACHE_TTL) := by omega
    simp only [newsHandler, if_neg hne2]
    cases g2 <;> cases d2 <;> rfl

/-- Claim C9, witness at a concrete state and failing general fetch. -/
theorem claim9_witness :
    newsHandler ⟨⟨[⟨"d1", "old"⟩], []⟩, 0⟩ 60000 (.error ()) (.ok []) =
      ⟨⟨[⟨"d1", "old"⟩], []⟩, ⟨⟨[⟨"d1", "old"⟩], []⟩, 0⟩, true⟩ :=
  (claim9_failed_fetch ⟨⟨[⟨"d1", "old"⟩], []⟩, 0⟩ 60000 (.error ()) (.ok [])
    (by decide) (Or.inl rfl)).1

/-- Claim C10: the HTML parser keeps a record for a matched container exactly
when both its trimmed headline text and its trimmed date text are non-empty,
formatting the date and keeping the trimmed headline; containers with an
empty trimmed headline or date contribute nothing. -/
theorem claim10_html_filter (items : List HtmlItem) :
    parseHtmlNews items =
      (items.filter (fun el =>
        !(jsTrim el.headText == "") && !(jsTrim el.dateText == ""))).map
        (fun el => ⟨srvFormatDate (jsTrim el.dateText), jsTrim el.headText⟩) := by
  unfold parseHtmlNews
  rw [parseHtmlNewsLoop_eq]
  simp
